import Mathlib

/-!
Shallow embedding of the Tetris game engine from src/tetris.tsx.

A board cell holds either 0 (empty) or a CSS color class string; we model
this as the inductive type Cell. Shapes are 0/1 occupancy matrices, modelled
as List (List Nat). Coordinates are integers: the piece origin y may become
negative through the upward rotation nudge, and collision checks compare
against signed bounds exactly as the source does.

React state setters are interpreted with snapshot (per-event) semantics:
within one event handler every read of a state variable sees the value from
the render the handler's closures were created in, and the queued updates
are applied in order afterwards. This matters for the hard-drop handler and
for the deferred row-clear callback, both embedded faithfully below. The
random tetromino choice is modelled by passing the chosen tetromino as a
parameter, and JS numbers for the drop interval are modelled as exact
rationals.
-/

namespace Tetris

/-- One board cell: 0 in the source (empty) or a color class string. -/
inductive Cell where
  | empty : Cell
  | filled : String → Cell
deriving DecidableEq, Repr

abbrev Row := List Cell
abbrev Board := List Row
abbrev Shape := List (List Nat)

/-- Source: a tetromino has an occupancy matrix and a color (the name added
by randomTetromino is never consulted by the engine, so it is omitted). -/
structure Tetromino where
  shape : Shape
  color : String
deriving DecidableEq, Repr

/-- Source: the active piece holds integer origin coordinates and a tetromino. -/
structure Piece where
  x : Int
  y : Int
  tetromino : Tetromino
deriving DecidableEq, Repr

def BOARD_WIDTH : Nat := 10
def BOARD_HEIGHT : Nat := 20

/-- Source INITIAL_DROP_TIME = 800; the drop interval is a JS number, modelled
as an exact rational. -/
def INITIAL_DROP_TIME : ℚ := 800

/-- Source SPEED_INCREASE_FACTOR = 0.95, modelled as the exact rational 19/20. -/
def SPEED_INCREASE_FACTOR : ℚ := 19 / 20

/-- Source createEmptyBoard: BOARD_HEIGHT rows of BOARD_WIDTH zeros. -/
def createEmptyBoard : Board :=
  List.replicate BOARD_HEIGHT (List.replicate BOARD_WIDTH Cell.empty)

/-- Reading board[i][j]; a missing row or cell reads as empty, which matches
the falsy short-circuit board[newY] && ... in the source. -/
def boardCell (b : Board) (i j : Nat) : Cell :=
  (b.getD i []).getD j Cell.empty

/-- Source checkCollision, the per-cell test: newX < 0 || newX >= BOARD_WIDTH
|| newY >= BOARD_HEIGHT || (newY >= 0 && board[newY] && board[newY][newX] !== 0). -/
def collidesAt (b : Board) (nx ny : Int) : Bool :=
  decide (nx < 0) || decide ((BOARD_WIDTH : Int) ≤ nx) ||
    decide ((BOARD_HEIGHT : Int) ≤ ny) ||
    (decide (0 ≤ ny) && decide (boardCell b ny.toNat nx.toNat ≠ Cell.empty))

/-- Source checkCollision: two nested index loops over the shape; a cell
participates when shape[row][col] !== 0. -/
def checkCollision (b : Board) (x y : Int) (shape : Shape) : Bool :=
  (List.range shape.length).any fun r =>
    (List.range (shape.getD r []).length).any fun c =>
      decide ((shape.getD r []).getD c 0 ≠ 0) && collidesAt b (x + c) (y + r)

/-- Source isValidMove. -/
def isValidMove (b : Board) (x y : Int) (shape : Shape) : Bool :=
  !(checkCollision b x y shape)

/-- Source rotate, the shape transform:
shape[0].map((_, i) => shape.map(row => row[i]).reverse()).
All catalog shapes and their rotations are rectangular, so row[i] is always
present; a missing entry is read as 0. -/
def rotateShape (shape : Shape) : Shape :=
  (List.range (shape.headD []).length).map fun i =>
    (shape.map fun row => row.getD i 0).reverse

/-- The matrix transpose written by indices: column i of the input becomes
row i of the output (for rectangular matrices this is the usual transpose). -/
def transposeIdx (shape : Shape) : Shape :=
  (List.range (shape.headD []).length).map fun i =>
    shape.map fun row => row.getD i 0

/-- Source rotate: try the rotated shape at (x,y), then (x-1,y), then
(x+1,y), then (x,y-1); if every candidate collides, return unchanged. -/
def rotatePiece (b : Board) (p : Piece) : Piece :=
  let rotated := rotateShape p.tetromino.shape
  if isValidMove b p.x p.y rotated then
    { p with tetromino := { p.tetromino with shape := rotated } }
  else if isValidMove b (p.x - 1) p.y rotated then
    { x := p.x - 1, y := p.y, tetromino := { p.tetromino with shape := rotated } }
  else if isValidMove b (p.x + 1) p.y rotated then
    { x := p.x + 1, y := p.y, tetromino := { p.tetromino with shape := rotated } }
  else if isValidMove b p.x (p.y - 1) rotated then
    { x := p.x, y := p.y - 1, tetromino := { p.tetromino with shape := rotated } }
  else p

/-- The first origin candidate in the list at which the shape fits. -/
def firstFit (b : Board) (shape : Shape) : List (Int × Int) → Option (Int × Int)
  | [] => none
  | pos :: rest =>
      if isValidMove b pos.1 pos.2 shape then some pos else firstFit b shape rest

/-- Source: row.every(cell => cell !== 0). -/
def isFullRow (row : Row) : Bool := row.all fun c => decide (c ≠ Cell.empty)

/-- Source checkCompletedRows, the scan: boardToCheck.forEach pushes the
index of every full row, in increasing order. -/
def fullRowIndicesFrom : Nat → Board → List Nat
  | _, [] => []
  | i, row :: rest =>
      if isFullRow row then i :: fullRowIndicesFrom (i + 1) rest
      else fullRowIndicesFrom (i + 1) rest

def fullRowIndices (b : Board) : List Nat := fullRowIndicesFrom 0 b

/-- Source: boardToCheck.filter((_, index) => !completedRowIndices.includes(index)). -/
def filterOutIdxFrom (indices : List Nat) : Nat → Board → Board
  | _, [] => []
  | i, row :: rest =>
      if i ∈ indices then filterOutIdxFrom indices (i + 1) rest
      else row :: filterOutIdxFrom indices (i + 1) rest

def emptyRow : Row := List.replicate BOARD_WIDTH Cell.empty

/-- Source: while (newBoard.length < BOARD_HEIGHT) newBoard.unshift(empty row). -/
def padToHeight (b : Board) : Board :=
  List.replicate (BOARD_HEIGHT - b.length) emptyRow ++ b

/-- The board mutation performed inside the deferred clear callback: delete
the named rows, then pad with empty rows at the top. -/
def removeRowsByIdx (b : Board) (indices : List Nat) : Board :=
  padToHeight (filterOutIdxFrom indices 0 b)

/-- Writing one cell of the board copy: newBoard[i][j] = c. An out-of-range
index leaves the board unchanged (never reached on a full-size board because
the source checks the bounds first). -/
def setCell (b : Board) (i j : Nat) (c : Cell) : Board :=
  b.set i ((b.getD i []).set j c)

/-- The cells of a shape with their indices, row-major, exactly as the
source's nested forEach visits them. -/
def shapeCells (shape : Shape) : List (Nat × Nat × Nat) :=
  (List.range shape.length).flatMap fun r =>
    (List.range (shape.getD r []).length).map fun c =>
      (r, c, (shape.getD r []).getD c 0)

/-- Source placePiece, one cell of the write loop: if the value is nonzero
and the absolute coordinates are inside the grid, write the color. -/
def writeStep (xo yo : Int) (col : String) (acc : Board)
    (cell : Nat × Nat × Nat) : Board :=
  if cell.2.2 ≠ 0 ∧ 0 ≤ yo + cell.1 ∧ yo + cell.1 < (BOARD_HEIGHT : Int) ∧
      0 ≤ xo + cell.2.1 ∧ xo + cell.2.1 < (BOARD_WIDTH : Int) then
    setCell acc (yo + cell.1).toNat (xo + cell.2.1).toNat (Cell.filled col)
  else acc

/-- Source placePiece, the board write: the nested forEach over the shape. -/
def writePiece (b : Board) (p : Piece) : Board :=
  (shapeCells p.tetromino.shape).foldl (writeStep p.x p.y p.tetromino.color) b

/-- Does some occupied cell of the piece's shape land on board cell (i, j)? -/
def coveredB (p : Piece) (i j : Nat) : Bool :=
  (shapeCells p.tetromino.shape).any fun cell =>
    decide (cell.2.2 ≠ 0) && decide ((i : Int) = p.y + cell.1) &&
      decide ((j : Int) = p.x + cell.2.1)

/-- A full-size board: BOARD_HEIGHT rows of BOARD_WIDTH cells. -/
def WFBoard (b : Board) : Prop :=
  b.length = BOARD_HEIGHT ∧ ∀ row ∈ b, row.length = BOARD_WIDTH

/-- The component state relevant to the engine: board, active piece, score,
game-over flag, drop interval, level, pending-clear row indices. -/
structure GameState where
  board : Board
  currentPiece : Option Piece
  score : Nat
  gameOver : Bool
  dropTime : ℚ
  level : Nat
  completedRows : List Nat
deriving DecidableEq, Repr

/-- The state as initialized by the useState calls (and restored by reset). -/
def initialState : GameState :=
  { board := createEmptyBoard, currentPiece := none, score := 0,
    gameOver := false, dropTime := INITIAL_DROP_TIME, level := 1,
    completedRows := [] }

/-- The spawn column of the source: Math.floor(BOARD_WIDTH / 2) -
Math.floor(shape[0].length / 2). -/
def spawnX (t : Tetromino) : Int :=
  ((BOARD_WIDTH / 2 : Nat) : Int) - (((t.shape.headD []).length / 2 : Nat) : Int)

/-- Source spawnNewPiece: the random tetromino is a parameter, and the board
the closure reads is passed explicitly (inside placePiece it is the
render-time board, without the just-locked piece). -/
def spawnNewPiece (b : Board) (t : Tetromino) (g : GameState) : GameState :=
  let newPiece : Piece := { x := spawnX t, y := 0, tetromino := t }
  if checkCollision b newPiece.x newPiece.y t.shape then { g with gameOver := true }
  else { g with currentPiece := some newPiece }

/-- The while loop of the hard-drop handler, with explicit fuel. Whenever
the shape has an occupied cell the source loop stops before y exceeds
BOARD_HEIGHT, so the fuel below is never exhausted and the two agree; on an
all-zero shape the source loop would not terminate at all. -/
def dropYAux (b : Board) (x : Int) (shape : Shape) : Nat → Int → Int
  | 0, y => y
  | fuel + 1, y =>
      if isValidMove b x (y + 1) shape then dropYAux b x shape fuel (y + 1) else y

def dropY (b : Board) (x : Int) (shape : Shape) (y : Int) : Int :=
  dropYAux b x shape (((BOARD_HEIGHT : Int) + 1 - y).toNat + shape.length + 1) y

/-- The Space-key handler (dropToBottom). Under React's per-event snapshot
semantics the piece update (y := newY) is only queued; placePiece then runs
with the same render snapshot, so it still sees the piece at its original y
and the board receives the piece at the pre-drop position, after which the
spawn performed by placePiece overwrites the queued y update (unless the
spawn collides, in which case only gameOver is set and the queued y update
survives). -/
def hardDrop (g : GameState) (t : Tetromino) : GameState :=
  match g.currentPiece with
  | none => g
  | some p =>
      let newY := dropY g.board p.x p.tetromino.shape p.y
      if newY = p.y then g
      else
        let newBoard := writePiece g.board p
        let completed := fullRowIndices newBoard
        spawnNewPiece g.board t
          { g with currentPiece := some { p with y := newY },
                   board := newBoard,
                   completedRows := if completed.isEmpty then g.completedRows
                                    else completed }

/-- Source resetGame: every state field is reset and the fall interval is
cleared; a pending row-clear timeout is NOT cancelled. -/
def resetGame (_g : GameState) : GameState := initialState

/-- The setTimeout callback scheduled by checkCompletedRows. boardToCheck,
the completed indices and the score and level reads are captured from the
render the placement happened in (stale closures), while setLevel and
setDropTime use functional updaters and therefore act on the live values. -/
def clearTimeoutAction (boardToCheck : Board) (indices : List Nat)
    (scoreSnap levelSnap : Nat) (g : GameState) : GameState :=
  let newBoard := removeRowsByIdx boardToCheck indices
  let newScore := scoreSnap + indices.length * 100 * levelSnap
  if ((newScore : Int) / 500) > (levelSnap : Int) - 1 then
    { g with board := newBoard, completedRows := [], score := newScore,
             level := g.level + 1, dropTime := g.dropTime * SPEED_INCREASE_FACTOR }
  else
    { g with board := newBoard, completedRows := [], score := newScore }

/-- The O tetromino from the source catalog. -/
def tetO : Tetromino := { shape := [[1, 1], [1, 1]], color := "bg-yellow-500" }

/-- The I tetromino from the source catalog. -/
def tetI : Tetromino := { shape := [[1, 1, 1, 1]], color := "bg-cyan-500" }

/-- A board as it looks right after a placement completed row 19, with one
extra occupied cell in row 18: the stale board captured by a pending clear. -/
def staleBoard : Board :=
  List.replicate 18 emptyRow ++
    [Cell.filled "bg-blue-500" :: List.replicate 9 Cell.empty,
     List.replicate 10 (Cell.filled "bg-red-500")]

/-- The fresh state with the O piece active at the spawn column. -/
def hardDropStart : GameState :=
  { initialState with currentPiece := some ⟨4, 0, tetO⟩ }

/-- Characterization of checkCollision as a bounded existential over the
shape's cells (shared helper). -/
theorem collides_char (b : Board) (x y : Int) (shape : Shape) :
    checkCollision b x y shape = true ↔
      ∃ r c, r < shape.length ∧ c < (shape.getD r []).length ∧
        (shape.getD r []).getD c 0 ≠ 0 ∧
        (x + c < 0 ∨ (BOARD_WIDTH : Int) ≤ x + c ∨ (BOARD_HEIGHT : Int) ≤ y + r ∨
          (0 ≤ y + r ∧ boardCell b (y + r).toNat (x + c).toNat ≠ Cell.empty)) := by
  simp only [checkCollision, collidesAt, List.any_eq_true, List.mem_range,
    Bool.and_eq_true, Bool.or_eq_true, decide_eq_true_eq]
  constructor
  · rintro ⟨r, hr, c, hc, hocc, hcol⟩
    exact ⟨r, c, hr, hc, hocc, by tauto⟩
  · rintro ⟨r, c, hr, hc, hocc, hcol⟩
    exact ⟨r, hr, c, hc, hocc, by tauto⟩

/-- C1: checkCollision returns true iff some occupied shape cell (r,c) maps
to an absolute position (x+c, y+r) that is out of the side bounds, at or
below the floor, or on an occupied board cell at a non-negative row; a cell
above the top (y+r < 0) with in-range x+c contributes no collision. -/
theorem checkCollision_iff (b : Board) (x y : Int) (shape : Shape) :
    checkCollision b x y shape = true ↔
      ∃ r c, r < shape.length ∧ c < (shape.getD r []).length ∧
        (shape.getD r []).getD c 0 ≠ 0 ∧
        (x + c < 0 ∨ (BOARD_WIDTH : Int) ≤ x + c ∨ (BOARD_HEIGHT : Int) ≤ y + r ∨
          (0 ≤ y + r ∧ boardCell b (y + r).toNat (x + c).toNat ≠ Cell.empty)) :=
  collides_char b x y shape

/-- C2: rotate replaces the shape by its clockwise rotation (transpose, then
reverse each row) and the origin by the first non-colliding candidate among
(x,y), (x-1,y), (x+1,y), (x,y-1); if all four collide the piece is returned
completely unchanged. -/
theorem rotatePiece_spec (b : Board) (p : Piece) :
    rotateShape p.tetromino.shape = (transposeIdx p.tetromino.shape).map List.reverse ∧
      (match firstFit b (rotateShape p.tetromino.shape)
          [(p.x, p.y), (p.x - 1, p.y), (p.x + 1, p.y), (p.x, p.y - 1)] with
        | some pos =>
            rotatePiece b p =
              { x := pos.1, y := pos.2,
                tetromino := { shape := rotateShape p.tetromino.shape,
                               color := p.tetromino.color } }
        | none => rotatePiece b p = p) := by
  constructor
  · simp [rotateShape, transposeIdx, List.map_map, Function.comp_def]
  · simp only [rotatePiece, firstFit]
    split_ifs <;> simp_all

/-- Rotation never moves a valid piece into a colliding configuration: each
accepted candidate was accepted because it does not collide, and rejection
returns the piece unchanged. -/
theorem rotatePiece_preserves_valid (b : Board) (p : Piece)
    (h : checkCollision b p.x p.y p.tetromino.shape = false) :
    checkCollision b (rotatePiece b p).x (rotatePiece b p).y
      (rotatePiece b p).tetromino.shape = false := by
  simp only [rotatePiece]
  split_ifs with h1 h2 h3 h4 <;>
    simp_all [isValidMove]

/-- C9: from any non-colliding piece state, rotating twice leaves the piece
either unchanged or in a non-colliding state; in fact the resulting state is
always non-colliding. -/
theorem rotate_twice_safe (b : Board) (p : Piece)
    (h : checkCollision b p.x p.y p.tetromino.shape = false) :
    rotatePiece b (rotatePiece b p) = p ∨
      checkCollision b (rotatePiece b (rotatePiece b p)).x
        (rotatePiece b (rotatePiece b p)).y
        (rotatePiece b (rotatePiece b p)).tetromino.shape = false :=
  Or.inr (rotatePiece_preserves_valid b (rotatePiece b p)
    (rotatePiece_preserves_valid b p h))

/-- C9 witness: the O piece at (4,0) on the empty board does not collide, and
rotating it twice leaves it unchanged or valid. -/
theorem rotate_twice_safe_witness :
    checkCollision createEmptyBoard 4 0 tetO.shape = false ∧
      (rotatePiece createEmptyBoard (rotatePiece createEmptyBoard ⟨4, 0, tetO⟩) = ⟨4, 0, tetO⟩ ∨
        checkCollision createEmptyBoard
          (rotatePiece createEmptyBoard (rotatePiece createEmptyBoard ⟨4, 0, tetO⟩)).x
          (rotatePiece createEmptyBoard (rotatePiece createEmptyBoard ⟨4, 0, tetO⟩)).y
          (rotatePiece createEmptyBoard (rotatePiece createEmptyBoard ⟨4, 0, tetO⟩)).tetromino.shape
          = false) :=
  ⟨by decide, rotate_twice_safe createEmptyBoard ⟨4, 0, tetO⟩ (by decide)⟩

theorem mem_fullRowIndicesFrom (b : Board) :
    ∀ (n i : Nat), i ∈ fullRowIndicesFrom n b ↔
      ∃ j, j < b.length ∧ i = n + j ∧ isFullRow (b.getD j []) = true := by
  induction b with
  | nil => simp [fullRowIndicesFrom]
  | cons row rest ih =>
    intro n i
    simp only [fullRowIndicesFrom]
    by_cases hf : isFullRow row
    · rw [if_pos hf]
      constructor
      · intro hm
        rcases List.mem_cons.1 hm with rfl | hmem
        · exact ⟨0, by simp, by omega, by simpa using hf⟩
        · obtain ⟨j, hj, hij, hfull⟩ := (ih (n + 1) i).1 hmem
          exact ⟨j + 1, by simp; omega, by omega, by simpa using hfull⟩
      · rintro ⟨j, hj, rfl, hfull⟩
        cases j with
        | zero => simp
        | succ j' =>
            refine List.mem_cons.2 (Or.inr ((ih (n + 1) (n + (j' + 1))).2 ?_))
            exact ⟨j', by simp at hj; omega, by omega, by simpa using hfull⟩
    · rw [if_neg hf]
      constructor
      · intro hmem
        obtain ⟨j, hj, hij, hfull⟩ := (ih (n + 1) i).1 hmem
        exact ⟨j + 1, by simp; omega, by omega, by simpa using hfull⟩
      · rintro ⟨j, hj, rfl, hfull⟩
        cases j with
        | zero => simp at hfull; exact absurd hfull hf
        | succ j' =>
            refine (ih (n + 1) (n + (j' + 1))).2 ?_
            exact ⟨j', by simp at hj; omega, by omega, by simpa using hfull⟩

theorem filterOutIdxFrom_eq_filter (b : Board) :
    ∀ (n : Nat) (L : List Nat),
      (∀ j, j < b.length → ((n + j) ∈ L ↔ isFullRow (b.getD j []) = true)) →
      filterOutIdxFrom L n b = b.filter fun r => !(isFullRow r) := by
  induction b with
  | nil => intro n L _; rfl
  | cons row rest ih =>
    intro n L hL
    have h0 := hL 0 (by simp)
    simp only [Nat.add_zero, List.getD_cons_zero] at h0
    have hrest : ∀ j, j < rest.length →
        ((n + 1 + j) ∈ L ↔ isFullRow (rest.getD j []) = true) := by
      intro j hj
      have h1 := hL (j + 1) (by simp; omega)
      have harith : n + (j + 1) = n + 1 + j := by omega
      rw [harith] at h1
      simpa using h1
    simp only [filterOutIdxFrom, List.filter_cons]
    by_cases hf : isFullRow row
    · rw [if_pos (h0.2 hf), ih (n + 1) L hrest]
      simp [hf]
    · rw [if_neg fun hn => hf (h0.1 hn), ih (n + 1) L hrest]
      simp [hf]

theorem countP_full_split (l : Board) :
    l.countP (fun r => !(isFullRow r)) + l.countP isFullRow = l.length := by
  induction l with
  | nil => simp
  | cons row rest ih =>
    simp only [List.countP_cons, List.length_cons]
    by_cases hf : isFullRow row <;> simp [hf] <;> omega

theorem length_fullRowIndicesFrom (b : Board) :
    ∀ n, (fullRowIndicesFrom n b).length = b.countP isFullRow := by
  induction b with
  | nil => intro n; simp [fullRowIndicesFrom]
  | cons row rest ih =>
    intro n
    simp only [fullRowIndicesFrom, List.countP_cons]
    by_cases hf : isFullRow row <;> simp [hf, ih]

/-- C4: clearing the completed rows of a full-height board yields exactly the
non-full rows in their original order, below as many fresh empty rows as
there were full rows, and the total row count stays BOARD_HEIGHT. -/
theorem clearRows_preserves (b : Board) (h : b.length = BOARD_HEIGHT) :
    removeRowsByIdx b (fullRowIndices b) =
        List.replicate (fullRowIndices b).length emptyRow ++
          b.filter (fun r => !(isFullRow r)) ∧
      (removeRowsByIdx b (fullRowIndices b)).length = BOARD_HEIGHT := by
  have hmem : ∀ j, j < b.length →
      ((0 + j) ∈ fullRowIndices b ↔ isFullRow (b.getD j []) = true) := by
    intro j hj
    rw [Nat.zero_add, fullRowIndices, mem_fullRowIndicesFrom]
    constructor
    · rintro ⟨j', hj', hjj, hfull⟩
      have : j' = j := by omega
      subst this; exact hfull
    · intro hfull; exact ⟨j, hj, by omega, hfull⟩
  have hfil := filterOutIdxFrom_eq_filter b 0 (fullRowIndices b) hmem
  have hcount : (fullRowIndices b).length = b.countP isFullRow :=
    length_fullRowIndicesFrom b 0
  have hkle : b.countP isFullRow ≤ b.length := List.countP_le_length _
  have hflen : (b.filter fun r => !(isFullRow r)).length =
      b.length - b.countP isFullRow := by
    have h1 : (b.filter fun r => !(isFullRow r)).length =
        b.countP fun r => !(isFullRow r) := (List.countP_eq_length_filter _ b).symm
    have h2 := countP_full_split b
    omega
  have hmain : removeRowsByIdx b (fullRowIndices b) =
      List.replicate (fullRowIndices b).length emptyRow ++
        b.filter fun r => !(isFullRow r) := by
    rw [removeRowsByIdx, hfil, padToHeight, hflen, hcount, h]
    congr 1
    congr 1
    omega
  refine ⟨hmain, ?_⟩
  rw [hmain]
  simp only [List.length_append, List.length_replicate, hflen, hcount, h]
  omega

/-- C4 witness: a concrete full-height board with one full row keeps height
BOARD_HEIGHT and its non-full rows in order after the clear. -/
theorem clearRows_preserves_witness :
    (let b : Board := List.replicate 19 emptyRow ++ [List.replicate 10 (Cell.filled "bg-red-500")]
     b.length = BOARD_HEIGHT ∧
      (removeRowsByIdx b (fullRowIndices b) =
          List.replicate (fullRowIndices b).length emptyRow ++
            b.filter (fun r => !(isFullRow r)) ∧
        (removeRowsByIdx b (fullRowIndices b)).length = BOARD_HEIGHT)) :=
  ⟨by decide, clearRows_preserves _ (by decide)⟩

/-- C5: when a pending clear of n rows completes with its captured score and
level equal to the live ones (uninterrupted play), the score grows by exactly
n * 100 * level; exactly one level is gained and the drop interval is
multiplied by 0.95 when 1 + floor(newScore / 500) exceeds the previous
level, and level and drop interval are unchanged otherwise. -/
theorem clear_score_level (b' : Board) (idx : List Nat) (g : GameState) :
    (clearTimeoutAction b' idx g.score g.level g).score =
        g.score + idx.length * 100 * g.level ∧
      (clearTimeoutAction b' idx g.score g.level g).level =
        (if g.level < 1 + (g.score + idx.length * 100 * g.level) / 500 then
          g.level + 1
         else g.level) ∧
      (clearTimeoutAction b' idx g.score g.level g).dropTime =
        (if g.level < 1 + (g.score + idx.length * 100 * g.level) / 500 then
          g.dropTime * SPEED_INCREASE_FACTOR
         else g.dropTime) := by
  have hcond : (((g.score + idx.length * 100 * g.level : Nat) : Int) / 500 >
      (g.level : Int) - 1) ↔
      (g.level < 1 + (g.score + idx.length * 100 * g.level) / 500) := by
    omega
  simp only [clearTimeoutAction]
  by_cases hc : g.level < 1 + (g.score + idx.length * 100 * g.level) / 500
  · rw [if_pos (hcond.2 hc), if_pos hc, if_pos hc]
    exact ⟨rfl, rfl, rfl⟩
  · rw [if_neg fun hx => hc (hcond.1 hx), if_neg hc, if_neg hc]
    exact ⟨rfl, rfl, rfl⟩

/-- C6: spawning places the new piece at x = floor(width/2) -
floor(shapeWidth/2) and y = 0; the game-over flag becomes true exactly when
that position collides (otherwise it keeps its previous value, so it is not
set), and when there is no collision the new piece becomes the active piece. -/
theorem spawn_spec (b : Board) (t : Tetromino) (g : GameState) :
    spawnX t = ((BOARD_WIDTH / 2 : Nat) : Int) -
        (((t.shape.headD []).length / 2 : Nat) : Int) ∧
      (spawnNewPiece b t g).gameOver =
        (g.gameOver || checkCollision b (spawnX t) 0 t.shape) ∧
      (spawnNewPiece b t g).currentPiece =
        (if checkCollision b (spawnX t) 0 t.shape then g.currentPiece
         else some { x := spawnX t, y := 0, tetromino := t }) := by
  refine ⟨rfl, ?_⟩
  simp only [spawnNewPiece]
  by_cases hc : checkCollision b (spawnX t) 0 t.shape = true
  · simp [hc]
  · simp only [Bool.not_eq_true] at hc
    simp [hc]

/-- C3 refuted on the code: with the O piece at (4,0) on the empty board the
hard-drop handler computes the maximal descent newY = 18, but placePiece
runs on the same render snapshot and still sees the piece at y = 0, so the
piece is locked at the top of the board instead of at the maximally
descended position. -/
theorem hardDrop_stale_lock :
    dropY hardDropStart.board 4 tetO.shape 0 = 18 ∧
      boardCell (hardDrop hardDropStart tetO).board 0 4 = Cell.filled "bg-yellow-500" ∧
      boardCell (hardDrop hardDropStart tetO).board 1 4 = Cell.filled "bg-yellow-500" ∧
      boardCell (hardDrop hardDropStart tetO).board 18 4 = Cell.empty ∧
      boardCell (hardDrop hardDropStart tetO).board 19 4 = Cell.empty := by
  decide

/-- C7 refuted on the code: resetGame clears the fall interval but never the
pending clear timeout, so a clear scheduled before the reset still fires
afterwards and overwrites the fresh state with data derived from the stale
board and the captured score and level: the post-reset score becomes 100
instead of staying 0 and the post-reset board is no longer empty. -/
theorem reset_pending_clear_bug :
    (resetGame initialState).score = 0 ∧
      (resetGame initialState).board = createEmptyBoard ∧
      (clearTimeoutAction staleBoard [19] 0 1 (resetGame initialState)).score = 100 ∧
      boardCell (clearTimeoutAction staleBoard [19] 0 1
        (resetGame initialState)).board 19 0 = Cell.filled "bg-blue-500" := by
  decide

theorem getD_mem_of_lt (b : Board) (i : Nat) (hi : i < b.length) :
    b.getD i [] ∈ b := by
  rw [List.getD_eq_getElem?_getD, List.getElem?_eq_getElem hi, Option.getD_some]
  exact List.getElem_mem hi

/-- Reading after a single in-range cell write: the written cell holds the
new value, every other cell is unchanged. -/
theorem boardCell_setCell (b : Board) (i j : Nat) (c : Cell) (i' j' : Nat)
    (hi : i < b.length) (hj : j < (b.getD i []).length) :
    boardCell (setCell b i j c) i' j' =
      if i = i' ∧ j = j' then c else boardCell b i' j' := by
  unfold boardCell setCell
  by_cases hii : i = i'
  · subst hii
    have hrow : (b.set i ((b.getD i []).set j c)).getD i [] = (b.getD i []).set j c := by
      rw [List.getD_eq_getElem?_getD, List.getElem?_set_self (by simpa using hi),
        Option.getD_some]
    rw [hrow]
    by_cases hjj : j = j'
    · subst hjj
      rw [List.getD_eq_getElem?_getD, List.getElem?_set_self hj, Option.getD_some]
      simp
    · rw [List.getD_eq_getElem?_getD, List.getElem?_set_ne hjj,
        ← List.getD_eq_getElem?_getD]
      simp [hjj]
  · have hrow : (b.set i ((b.getD i []).set j c)).getD i' [] = b.getD i' [] := by
      rw [List.getD_eq_getElem?_getD, List.getElem?_set_ne hii,
        ← List.getD_eq_getElem?_getD]
    rw [hrow]
    simp [hii]

theorem wf_setCell (b : Board) (i j : Nat) (c : Cell) (hb : WFBoard b)
    (hi : i < b.length) : WFBoard (setCell b i j c) := by
  obtain ⟨hlen, hrow⟩ := hb
  refine ⟨by unfold setCell; rw [List.length_set]; exact hlen, ?_⟩
  intro row hmem
  rcases List.mem_or_eq_of_mem_set hmem with hmem' | rfl
  · exact hrow row hmem'
  · rw [List.length_set]
    exact hrow _ (getD_mem_of_lt b i hi)

theorem wf_writeStep (xo yo : Int) (col : String) (acc : Board)
    (cell : Nat × Nat × Nat) (hacc : WFBoard acc) :
    WFBoard (writeStep xo yo col acc cell) := by
  unfold writeStep
  split_ifs with hcond
  · obtain ⟨h1, h2, h3, h4, h5⟩ := hcond
    refine wf_setCell _ _ _ _ hacc ?_
    rw [hacc.1]
    omega
  · exact hacc

theorem wf_foldl_writeStep (xo yo : Int) (col : String) :
    ∀ (L : List (Nat × Nat × Nat)) (acc : Board), WFBoard acc →
      WFBoard (L.foldl (writeStep xo yo col) acc)
  | [], _, h => h
  | cell :: L, acc, h =>
      wf_foldl_writeStep xo yo col L _ (wf_writeStep xo yo col acc cell h)

/-- Reading after one step of the write loop: the cell changes to the color
exactly when this shape cell is occupied and lands on it. -/
theorem boardCell_writeStep (xo yo : Int) (col : String) (acc : Board)
    (cell : Nat × Nat × Nat) (hacc : WFBoard acc) (i j : Nat)
    (hi : i < BOARD_HEIGHT) (hj : j < BOARD_WIDTH) :
    boardCell (writeStep xo yo col acc cell) i j =
      (if (decide (cell.2.2 ≠ 0) && decide ((i : Int) = yo + cell.1) &&
          decide ((j : Int) = xo + cell.2.1)) = true then Cell.filled col
       else boardCell acc i j) := by
  obtain ⟨hlen, hrows⟩ := hacc
  by_cases hhit : cell.2.2 ≠ 0 ∧ (i : Int) = yo + cell.1 ∧ (j : Int) = xo + cell.2.1
  · obtain ⟨h1, h2', h3'⟩ := hhit
    have hcond : cell.2.2 ≠ 0 ∧ 0 ≤ yo + (cell.1 : Int) ∧
        yo + (cell.1 : Int) < (BOARD_HEIGHT : Int) ∧ 0 ≤ xo + (cell.2.1 : Int) ∧
        xo + (cell.2.1 : Int) < (BOARD_WIDTH : Int) :=
      ⟨h1, by omega, by omega, by omega, by omega⟩
    have hilt : (yo + (cell.1 : Int)).toNat < acc.length := by rw [hlen]; omega
    have hjlt : (xo + (cell.2.1 : Int)).toNat <
        (acc.getD (yo + (cell.1 : Int)).toNat []).length := by
      rw [hrows _ (getD_mem_of_lt acc _ hilt)]; omega
    unfold writeStep
    rw [if_pos hcond, boardCell_setCell _ _ _ _ _ _ hilt hjlt,
      if_pos ⟨by omega, by omega⟩,
      if_pos (by simp only [Bool.and_eq_true, decide_eq_true_eq]; exact ⟨⟨h1, h2'⟩, h3'⟩)]
  · have hrhs : ¬((decide (cell.2.2 ≠ 0) && decide ((i : Int) = yo + cell.1) &&
        decide ((j : Int) = xo + cell.2.1)) = true) := by
      simp only [Bool.and_eq_true, decide_eq_true_eq]
      rintro ⟨⟨ha, hb⟩, hc⟩
      exact hhit ⟨ha, hb, hc⟩
    rw [if_neg hrhs]
    unfold writeStep
    split_ifs with hcond
    · obtain ⟨h1, h2, h3, h4, h5⟩ := hcond
      have hilt : (yo + (cell.1 : Int)).toNat < acc.length := by rw [hlen]; omega
      have hjlt : (xo + (cell.2.1 : Int)).toNat <
          (acc.getD (yo + (cell.1 : Int)).toNat []).length := by
        rw [hrows _ (getD_mem_of_lt acc _ hilt)]; omega
      rw [boardCell_setCell _ _ _ _ _ _ hilt hjlt, if_neg ?hne]
      case hne =>
        rintro ⟨ha, hb⟩
        exact hhit ⟨h1, by omega, by omega⟩
    · rfl

/-- Reading after the whole write loop: the cell holds the color exactly
when some visited shape cell is occupied and lands on it. -/
theorem boardCell_foldl_writeStep (xo yo : Int) (col : String)
    (i j : Nat) (hi : i < BOARD_HEIGHT) (hj : j < BOARD_WIDTH) :
    ∀ (L : List (Nat × Nat × Nat)) (acc : Board), WFBoard acc →
      boardCell (L.foldl (writeStep xo yo col) acc) i j =
        (if L.any (fun cell => decide (cell.2.2 ≠ 0) &&
            decide ((i : Int) = yo + cell.1) && decide ((j : Int) = xo + cell.2.1))
         then Cell.filled col else boardCell acc i j) := by
  intro L
  induction L with
  | nil => intro acc hacc; simp
  | cons cell L ih =>
    intro acc hacc
    have hwf := wf_writeStep xo yo col acc cell hacc
    rw [List.foldl_cons, ih _ hwf,
      boardCell_writeStep xo yo col acc cell hacc i j hi hj]
    simp only [List.any_cons]
    by_cases hLa : L.any (fun cell => decide (cell.2.2 ≠ 0) &&
        decide ((i : Int) = yo + cell.1) && decide ((j : Int) = xo + cell.2.1)) = true
    · simp only [ne_eq] at hLa ⊢
      simp only [hLa, Bool.or_true, if_true]
    · simp only [Bool.not_eq_true] at hLa
      simp only [ne_eq] at hLa ⊢
      simp only [hLa, Bool.or_false]
      simp

theorem mem_shapeCells (shape : Shape) (r c v : Nat) :
    (r, c, v) ∈ shapeCells shape ↔
      r < shape.length ∧ c < (shape.getD r []).length ∧
        v = (shape.getD r []).getD c 0 := by
  simp only [shapeCells, List.mem_flatMap, List.mem_map, List.mem_range,
    Prod.mk.injEq]
  constructor
  · rintro ⟨r', hr', c', hc', rfl, rfl, rfl⟩
    exact ⟨hr', hc', rfl⟩
  · rintro ⟨hr, hc, rfl⟩
    exact ⟨r, hr, c, hc, rfl, rfl, rfl⟩

/-- coveredB decides whether some occupied shape cell of the piece lands on
board cell (i, j). -/
theorem coveredB_iff (p : Piece) (i j : Nat) :
    coveredB p i j = true ↔
      ∃ r c, r < p.tetromino.shape.length ∧
        c < (p.tetromino.shape.getD r []).length ∧
        (p.tetromino.shape.getD r []).getD c 0 ≠ 0 ∧
        (i : Int) = p.y + r ∧ (j : Int) = p.x + c := by
  unfold coveredB
  simp only [List.any_eq_true, Bool.and_eq_true, decide_eq_true_eq]
  constructor
  · rintro ⟨⟨r, c, v⟩, hmem, ⟨hv, hi2⟩, hj2⟩
    obtain ⟨hr, hc, rfl⟩ := (mem_shapeCells _ _ _ _).1 hmem
    exact ⟨r, c, hr, hc, hv, hi2, hj2⟩
  · rintro ⟨r, c, hr, hc, hv, hi2, hj2⟩
    exact ⟨(r, c, (p.tetromino.shape.getD r []).getD c 0),
      (mem_shapeCells _ _ _ _).2 ⟨hr, hc, rfl⟩, ⟨hv, hi2⟩, hj2⟩

/-- C10: placePiece writes the piece's color exactly to the in-bounds board
cells covered by an occupied cell of the shape and leaves every other cell
unchanged; under the no-collision precondition it never overwrites an
occupied cell. -/
theorem writePiece_frame (b : Board) (p : Piece) (hb : WFBoard b)
    (i j : Nat) (hi : i < BOARD_HEIGHT) (hj : j < BOARD_WIDTH) :
    (coveredB p i j = true ↔
        ∃ r c, r < p.tetromino.shape.length ∧
          c < (p.tetromino.shape.getD r []).length ∧
          (p.tetromino.shape.getD r []).getD c 0 ≠ 0 ∧
          (i : Int) = p.y + r ∧ (j : Int) = p.x + c) ∧
      boardCell (writePiece b p) i j =
        (if coveredB p i j then Cell.filled p.tetromino.color
         else boardCell b i j) ∧
      (checkCollision b p.x p.y p.tetromino.shape = false →
        boardCell b i j ≠ Cell.empty →
        boardCell (writePiece b p) i j = boardCell b i j) := by
  have hpoint : boardCell (writePiece b p) i j =
      (if coveredB p i j then Cell.filled p.tetromino.color
       else boardCell b i j) := by
    unfold writePiece coveredB
    exact boardCell_foldl_writeStep p.x p.y p.tetromino.color i j hi hj
      (shapeCells p.tetromino.shape) b hb
  refine ⟨coveredB_iff p i j, hpoint, ?_⟩
  intro hnc hocc
  rw [hpoint]
  have hcov : coveredB p i j = false := by
    by_contra hcv
    rw [Bool.not_eq_false] at hcv
    obtain ⟨r, c, hr, hc, hv, hi2, hj2⟩ := (coveredB_iff p i j).1 hcv
    have : checkCollision b p.x p.y p.tetromino.shape = true := by
      refine (collides_char b p.x p.y p.tetromino.shape).2
        ⟨r, c, hr, hc, hv, Or.inr (Or.inr (Or.inr ⟨by omega, ?_⟩))⟩
      have hri : (p.y + (r : Int)).toNat = i := by omega
      have hcj : (p.x + (c : Int)).toNat = j := by omega
      rw [hri, hcj]
      exact hocc
    rw [this] at hnc
    exact Bool.noConfusion hnc
  rw [hcov]
  simp

/-- C10 witness: on the empty board (which is well-formed) with the O piece
at (4, 0), the frame property holds at cell (0, 4). -/
theorem writePiece_frame_witness :
    WFBoard createEmptyBoard ∧ (0 : Nat) < BOARD_HEIGHT ∧ (4 : Nat) < BOARD_WIDTH ∧
      ((coveredB ⟨4, 0, tetO⟩ 0 4 = true ↔
          ∃ r c, r < (tetO.shape : Shape).length ∧
            c < ((tetO.shape : Shape).getD r []).length ∧
            ((tetO.shape : Shape).getD r []).getD c 0 ≠ 0 ∧
            ((0 : Nat) : Int) = (0 : Int) + r ∧ ((4 : Nat) : Int) = (4 : Int) + c) ∧
        boardCell (writePiece createEmptyBoard ⟨4, 0, tetO⟩) 0 4 =
          (if coveredB ⟨4, 0, tetO⟩ 0 4 then Cell.filled tetO.color
           else boardCell createEmptyBoard 0 4) ∧
        (checkCollision createEmptyBoard 4 0 tetO.shape = false →
          boardCell createEmptyBoard 0 4 ≠ Cell.empty →
          boardCell (writePiece createEmptyBoard ⟨4, 0, tetO⟩) 0 4 =
            boardCell createEmptyBoard 0 4)) :=
  ⟨⟨by decide, by decide⟩, by decide, by decide,
    writePiece_frame createEmptyBoard ⟨4, 0, tetO⟩ ⟨by decide, by decide⟩ 0 4
      (by decide) (by decide)⟩

end Tetris
